import Mathlib

/-!
Verification development for the Historical Rate Explorer app (src/app.py).

The app's core logic is shallowly embedded here:

* the tolerant CSV loader `load_csv_auto` (header scan for a line starting
  with "date,", metadata stripping, fallback whole-file parse, column-name
  stripping, date coercion / sort / set_index on the "Date" branch);
* the value-column normalisation in `main` (lines 104-110 of app.py);
* the date-range filter (lines 114-118), the monthly resample (lines
  125-126 and 165), the rolling mean overlay (lines 136-138), the quick
  stats block (lines 156-160, 164) and the CSV export (line 173).

Modelling conventions: text is a list of characters; a parsed calendar
date is encoded as the natural number y*10000 + m*100 + d (so that the
numeric order coincides with chronological order); cell values are
rationals (exact stand-ins for the float64 values pandas produces); code
that can fail returns Except/Option.  The date parser accepts ISO
YYYY-MM-DD dates (the repository's data format); pandas' wider
to_datetime tolerance and NaN cells are outside the model.
-/

namespace RateExplorer

/-- A line (or cell) of raw text, as a list of characters. -/
abbrev Line := List Char

/-- ASCII lower-casing of one character, as Python str.lower does on ASCII. -/
def lowerChar (c : Char) : Char :=
  if 65 ≤ c.toNat && c.toNat ≤ 90 then Char.ofNat (c.toNat + 32) else c

/-- Whitespace recognised by the model of Python str.strip (lines hold no newline). -/
def isSpaceChar (c : Char) : Bool :=
  c == ' ' || c == '\t' || c == '\r'

/-- Python str.strip: drop leading and trailing whitespace. -/
def trimL (cs : Line) : Line :=
  ((cs.dropWhile isSpaceChar).reverse.dropWhile isSpaceChar).reverse

/-- Python str.lower over a whole line (ASCII fragment). -/
def lowerL (cs : Line) : Line := cs.map lowerChar

/-- Python str.startswith: does the second list start with the first? -/
def listStarts : Line → Line → Bool
  | [], _ => true
  | _ :: _, [] => false
  | p :: ps, c :: cs => p == c && listStarts ps cs

/-- Python str.split(sep) on a single separator character. -/
def splitSep (sep : Char) : List Char → List (List Char)
  | [] => [[]]
  | c :: cs =>
    match splitSep sep cs with
    | [] => [[c]]
    | f :: rest => if c == sep then [] :: f :: rest else (c :: f) :: rest

/-- Join lines with a terminating newline after each line (the shape of
pandas to_csv output). -/
def joinNl (ls : List Line) : List Char :=
  ls.foldr (fun l acc => l ++ '\n' :: acc) []

/-- The decimal digit character for d < 10. -/
def digitChar (d : Nat) : Char := Char.ofNat (48 + d)

/-- The numeric value of a decimal digit character. -/
def charVal (c : Char) : Nat := c.toNat - 48

/-- Is the character an ASCII decimal digit? -/
def isDigitChar (c : Char) : Bool := 48 ≤ c.toNat && c.toNat ≤ 57

/-- Decimal digits of n, least significant first, with explicit fuel
(fuel ≥ n suffices). -/
def digitsRevAux : Nat → Nat → List Nat
  | 0, _ => []
  | fuel + 1, n => if n = 0 then [] else n % 10 :: digitsRevAux fuel (n / 10)

/-- Decimal digits of n, most significant first (empty for 0). -/
def natDigits (n : Nat) : List Nat := (digitsRevAux n n).reverse

/-- Print a natural number in decimal. -/
def printNat (n : Nat) : Line :=
  if n = 0 then ['0'] else (natDigits n).map digitChar

/-- Left-pad with zeros to the given width. -/
def padZeros (w : Nat) (cs : Line) : Line :=
  List.replicate (w - cs.length) '0' ++ cs

/-- Print a natural number zero-padded to the given width. -/
def printNatPad (w n : Nat) : Line := padZeros w (printNat n)

/-- Read a string of decimal digit characters as a natural number. -/
def parseNatCore (cs : Line) : Nat :=
  cs.foldl (fun a c => a * 10 + charVal c) 0

/-- Is the line a nonempty all-digit string? -/
def digitsOk (cs : Line) : Bool := !cs.isEmpty && cs.all isDigitChar

/-- Parse an ISO YYYY-MM-DD date into its numeric encoding
y*10000 + m*100 + d (the model of pandas to_datetime on this data). -/
def parseDate (cs : Line) : Option Nat :=
  match splitSep '-' cs with
  | [ys, ms, ds] =>
    if digitsOk ys && digitsOk ms && digitsOk ds then
      some (parseNatCore ys * 10000 + parseNatCore ms * 100 + parseNatCore ds)
    else none
  | _ => none

/-- Print an encoded date back as YYYY-MM-DD (the shape to_csv emits for
a datetime.date index). -/
def printDate (d : Nat) : Line :=
  printNatPad 4 (d / 10000) ++ '-' :: printNatPad 2 (d / 100 % 100) ++ '-' :: printNatPad 2 (d % 100)

/-- Fixed decimal scale used when printing a rational value (nine
fractional digits; values whose denominator divides this scale print
exactly, which models float64 repr printing exactly). -/
def scaleDen : Nat := 1000000000

/-- Print a rational value as a (sign-prefixed) fixed-point decimal with
nine fractional digits. -/
def printVal (q : ℚ) : Line :=
  (if q.num * ((scaleDen : Int) / (q.den : Int)) < 0 then ['-'] else []) ++
    printNat ((q.num * ((scaleDen : Int) / (q.den : Int))).natAbs / scaleDen) ++
    '.' :: printNatPad 9 ((q.num * ((scaleDen : Int) / (q.den : Int))).natAbs % scaleDen)

/-- Parse an unsigned decimal numeral, with an optional fractional part
(the model of pandas' float parsing of a CSV cell). -/
def parseUVal (cs : Line) : Option ℚ :=
  match splitSep '.' cs with
  | [w] => if digitsOk w then some ((parseNatCore w : ℚ)) else none
  | [w, fr] =>
    if (w.all isDigitChar && fr.all isDigitChar) && !(w.isEmpty && fr.isEmpty) then
      some ((parseNatCore w : ℚ) + (parseNatCore fr : ℚ) / (10 : ℚ) ^ fr.length)
    else none
  | _ => none

/-- Parse a possibly negative decimal numeral. -/
def parseVal (cs : Line) : Option ℚ :=
  if cs.headD ' ' == '-' then (parseUVal cs.tail).map Neg.neg else parseUVal cs

/-- The literal "date," that identifies a header line. -/
def dateCommaL : Line := ['d', 'a', 't', 'e', ',']

/-- The column name "Date". -/
def dateColTarget : Line := ['D', 'a', 't', 'e']

/-- The column name "Value". -/
def valueColName : Line := ['V', 'a', 'l', 'u', 'e']

/-- app.py line 20: a header line is one whose stripped, lower-cased text
starts with "date,". -/
def isHeaderLine (l : Line) : Bool := listStarts dateCommaL (lowerL (trimL l))

/-- The time-series table the pipeline works on: (encoded date, value)
rows in order. -/
abbrev Table := List (Nat × ℚ)

/-- Failure modes of the load pipeline (pandas exceptions and the
"No numeric Value column" early return in main). -/
inductive LoadErr where
  | emptyInput
  | ragged
  | badDate
  | noNumericValue
  | badValue
  | noValueColumn
deriving DecidableEq

deriving instance DecidableEq for Except

/-- The model of a loaded pandas DataFrame: the (first) date column's
name, the remaining column names, rows of parsed date plus raw remaining
cells, and whether set_index("Date") has been applied. -/
structure Frame where
  dateName : Line
  cols : List Line
  rows : List (Nat × List Line)
  indexed : Bool
deriving DecidableEq

/-- Parse the data rows of a CSV body: split on commas, enforce the
header's field count, parse the first field as a date. -/
def parseRows (width : Nat) : List Line → Except LoadErr (List (Nat × List Line))
  | [] => .ok []
  | l :: ls =>
    let fs := splitSep ',' l
    if fs.length = width then
      match parseDate (fs.headD []) with
      | some d => (parseRows width ls).map (fun rest => (d, fs.tail) :: rest)
      | none => .error .badDate
    else .error .ragged

/-- Parse a header line plus data lines (blank lines already removed):
the header's comma-split fields name the columns, and the first column of
every data row is parsed as a date. -/
def readCsvCore : List Line → Except LoadErr Frame
  | [] => .error .emptyInput
  | h :: data =>
    (parseRows (splitSep ',' h).length data).map
      (fun rs => ⟨(splitSep ',' h).headD [], (splitSep ',' h).tail, rs, false⟩)

/-- The model of pandas read_csv(..., parse_dates=[0]): first nonblank
line is the header, blank lines are skipped, the first column is parsed
as dates.  (The model commits to the date parse succeeding; pandas would
silently keep an unparseable first column as strings.) -/
def readCsv (lines : List Line) : Except LoadErr Frame :=
  readCsvCore (lines.filter (fun l => !l.isEmpty))

/-- app.py line 25/29: strip whitespace from every column name. -/
def stripCols (f : Frame) : Frame :=
  ⟨trimL f.dateName, f.cols.map trimL, f.rows, f.indexed⟩

/-- Stable insertion into a list sorted by the Nat key. -/
def insertRow {α : Type} (r : Nat × α) : List (Nat × α) → List (Nat × α)
  | [] => [r]
  | s :: t => if r.1 ≤ s.1 then r :: s :: t else s :: insertRow r t

/-- Sort rows ascending by the Nat key (the model of sort_values("Date");
the model fixes a stable order among equal keys, which pandas leaves
unspecified). -/
def sortRows {α : Type} : List (Nat × α) → List (Nat × α)
  | [] => []
  | r :: t => insertRow r (sortRows t)

/-- Is a list of naturals weakly increasing? -/
def natSorted : List Nat → Bool
  | [] => true
  | [_] => true
  | a :: b :: t => a ≤ b && natSorted (b :: t)

/-- Is a keyed list sorted ascending by its Nat keys? -/
def keysSorted {α : Type} (l : List (Nat × α)) : Bool := natSorted (l.map Prod.fst)

/-- app.py lines 30-34: when the stripped first column is named "Date",
coerce it (dates are already calendar dates in the model), sort the rows
by it and set it as the index; otherwise the frame passes through.  (The
source tests membership of "Date" in all columns; the model assumes the
date column is the first one, which is where parse_dates put it.) -/
def dateFix (f : Frame) : Frame :=
  if f.dateName = dateColTarget then ⟨f.dateName, f.cols, sortRows f.rows, true⟩ else f

/-- app.py lines 17-34 (load_csv_auto after splitting into lines): scan
for the first header line; with no header, parse the whole input as a
standard CSV (no sort, no index); otherwise drop the metadata lines,
parse from the header on, and apply the "Date" branch. -/
def loadLines (lines : List Line) : Except LoadErr Frame :=
  match lines.findIdx? isHeaderLine with
  | none => (readCsv lines).map stripCols
  | some i => (readCsv (lines.drop i)).map (fun f => dateFix (stripCols f))

/-- load_csv_auto over raw text: split into lines, then scan. -/
def loadText (text : List Char) : Except LoadErr Frame :=
  loadLines (splitSep '\n' text)

/-- The data-frame columns visible to main: the index is not a column. -/
def columnsOf (f : Frame) : List Line :=
  if f.indexed then f.cols else f.dateName :: f.cols

/-- Is column j of the frame numeric, i.e. does every cell of it parse
as a number?  (The model of pandas assigning a numeric dtype.) -/
def colNumeric (f : Frame) (j : Nat) : Bool :=
  (f.rows.map (fun r => r.2.getD j [])).all (fun c => (parseVal c).isSome)

/-- First index in the list satisfying the predicate. -/
def firstIdxAux (p : Nat → Bool) : List Nat → Option Nat
  | [] => none
  | j :: js => if p j then some j else firstIdxAux p js

/-- The first numeric column of the frame (among the non-index columns;
the parsed date column is datetime-typed for pandas and so never
numeric). -/
def firstNumericCol (f : Frame) : Option Nat :=
  firstIdxAux (colNumeric f) (List.range f.cols.length)

/-- app.py lines 104-110: if no column is named exactly "Value", rename
the first numeric column to "Value", or fail when there is none. -/
def valueFix (f : Frame) : Except LoadErr Frame :=
  if valueColName ∈ columnsOf f then .ok f
  else
    match firstNumericCol f with
    | some j => .ok ⟨f.dateName, f.cols.set j valueColName, f.rows, f.indexed⟩
    | none => .error .noNumericValue

/-- Index of the given column name among the non-index columns. -/
def colIdx (n : Line) : List Line → Option Nat
  | [] => none
  | c :: cs => if c = n then some 0 else (colIdx n cs).map (· + 1)

/-- Parse column j of the rows as the numeric payload. -/
def parseColumn (j : Nat) : List (Nat × List Line) → Except LoadErr Table
  | [] => .ok []
  | r :: rs =>
    match parseVal (r.2.getD j []) with
    | some v => (parseColumn j rs).map (fun rest => (r.1, v) :: rest)
    | none => .error .badValue

/-- Project the frame to the (date, Value) table the rest of main works
on. -/
def toTable (f : Frame) : Except LoadErr Table :=
  match colIdx valueColName f.cols with
  | some j => parseColumn j f.rows
  | none => .error .noValueColumn

/-- The whole load pipeline: load_csv_auto, then main's value-column
normalisation, then projection to (date, Value) rows. -/
def pipelineLoad (text : List Char) : Except LoadErr Table := do
  let f ← loadText text
  let g ← valueFix f
  toTable g

/-- One exported CSV row, as to_csv writes it: date, comma, value. -/
def csvRow (r : Nat × ℚ) : Line := printDate r.1 ++ ',' :: printVal r.2

/-- app.py line 173: export the filtered table as CSV text
("Date,Value" header then one row per table row). -/
def exportCsv (t : Table) : List Char :=
  joinNl ((dateColTarget ++ ',' :: valueColName) :: t.map csvRow)

/-- app.py lines 117-118: the inclusive date-range mask and row
selection. -/
def filterView (t : Table) (s e : Nat) : Table :=
  t.filter (fun r => decide (s ≤ r.1) && decide (r.1 ≤ e))

/-- Sum of a list of rationals. -/
def sumList : List ℚ → ℚ
  | [] => 0
  | x :: xs => x + sumList xs

/-- The trailing window pandas rolling(window=w, min_periods=1) sees at
position i: the last min(i+1, w) of the first i+1 values. -/
def windowSlice (w : Nat) (xs : List ℚ) (i : Nat) : List ℚ :=
  (xs.take (i + 1)).drop (i + 1 - w)

/-- app.py line 137: Series.rolling(window=w, min_periods=1).mean(). -/
def rollingMean (w : Nat) (xs : List ℚ) : List ℚ :=
  (List.range xs.length).map
    (fun i => sumList (windowSlice w xs i) / ((windowSlice w xs i).length : ℚ))

/-- The resample frequencies offered by the sidebar. -/
inductive Freq where
  | noFreq
  | weekly
  | monthly
  | quarterly
deriving DecidableEq

/-- app.py lines 136-138: the rolling overlay is computed from df_view
(the filtered, unresampled table); plot_df is not consulted. -/
def rollingOverlay (view : Table) (w : Nat) : List (Nat × ℚ) :=
  (view.map Prod.fst).zip (rollingMean w (view.map Prod.snd))

/-- The chart's overlay series as a function of the whole view request:
the frequency argument mirrors the resample selection that shapes
plot_df, and the overlay is drawn from df_view regardless of it. -/
def chartOverlay (view : Table) (_freq : Freq) (w : Nat) : List (Nat × ℚ) :=
  rollingOverlay view w

/-- The calendar-month key of an encoded date (y*100 + m). -/
def monthKey (d : Nat) : Nat := d / 100

/-- Linear index of a month key on the month number line. -/
def monthLin (k : Nat) : Nat := (k / 100) * 12 + k % 100 - 1

/-- Month key of a linear month index. -/
def monthOfLin (j : Nat) : Nat := (j / 12) * 100 + j % 12 + 1

/-- Gregorian leap-year test. -/
def isLeap (y : Nat) : Bool := (y % 4 == 0 && y % 100 != 0) || y % 400 == 0

/-- Days in a Gregorian month. -/
def daysInMonth (y m : Nat) : Nat :=
  if m = 2 then (if isLeap y then 29 else 28)
  else if m = 4 || m = 6 || m = 9 || m = 11 then 30
  else 31

/-- The month-end date labelling a resample("M") bucket. -/
def monthEnd (k : Nat) : Nat := k * 100 + daysInMonth (k / 100) (k % 100)

/-- The values of the table falling in the given calendar month. -/
def bucketVals (t : Table) (k : Nat) : List ℚ :=
  (t.filter (fun r => monthKey r.1 == k)).map Prod.snd

/-- Arithmetic mean of a bucket; empty buckets have no value (pandas
prints them as NaN). -/
def meanOpt (xs : List ℚ) : Option ℚ :=
  match xs with
  | [] => none
  | _ => some (sumList xs / (xs.length : ℚ))

/-- Smallest date in the table (0 on the empty table, unused there). -/
def minDate (t : Table) : Nat :=
  match t with
  | [] => 0
  | r :: rs => rs.foldl (fun a x => min a x.1) r.1

/-- Largest date in the table. -/
def maxDate (t : Table) : Nat :=
  match t with
  | [] => 0
  | r :: rs => rs.foldl (fun a x => max a x.1) r.1

/-- The binning semantics of pandas resample("M").mean() on a true
DatetimeIndex: one output row per calendar month from the first to the
last date, labelled by month end, holding the mean of that month's
values (none, i.e. NaN, when the month has no rows).  The app never
constructs a DatetimeIndex, so this branch of the resample dispatch
below is unreachable from the program. -/
def resampleMonthly (t : Table) : List (Nat × Option ℚ) :=
  match t with
  | [] => []
  | _ :: _ =>
    (List.range (monthLin (monthKey (maxDate t)) + 1 - monthLin (monthKey (minDate t)))).map
      (fun i =>
        let k := monthOfLin (monthLin (monthKey (minDate t)) + i)
        (monthEnd k, meanOpt (bucketVals t k)))

/-- The kind of index a DataFrame carries, as far as pandas resample
dispatch cares: the loader's Date path produces an object-dtype index of
datetime.date objects (pd.to_datetime(...).dt.date then set_index,
app.py lines 31-33 and 87-94), the fallback path leaves the default
range index, and a true DatetimeIndex is what resample requires but this
program never builds. -/
inductive PdIndexKind where
  | rangeIdx
  | dateObjects
  | datetimeIdx
deriving DecidableEq

/-- The pandas exception resample raises on a non-datetime index
("Only valid with DatetimeIndex, TimedeltaIndex or PeriodIndex"). -/
inductive PdTypeErr where
  | typeError
deriving DecidableEq

/-- pandas DataFrame.resample("M").mean(): monthly bins when the index
is a DatetimeIndex, a TypeError on any other index kind. -/
def resampleM (idx : PdIndexKind) (t : Table) : Except PdTypeErr (List (Nat × Option ℚ)) :=
  match idx with
  | .datetimeIdx => .ok (resampleMonthly t)
  | .dateObjects => .error .typeError
  | .rangeIdx => .error .typeError

/-- app.py lines 125-126 and 165: the resample("M").mean() call as main
makes it on df_view, whose index holds date objects when the loader set
the Date index and is a range index otherwise. -/
def appResampleMonthly (indexed : Bool) (t : Table) : Except PdTypeErr (List (Nat × Option ℚ)) :=
  resampleM (if indexed then .dateObjects else .rangeIdx) t

/-- Failure modes of the quick-stats block.  indexError is what the
unguarded iloc[-1] raises; emptyView is the distinct error the spec asks
for and the code never raises. -/
inductive RunErr where
  | indexError
  | emptyView
deriving DecidableEq

/-- The quick-stats record (describe is display-only and not modelled). -/
structure Stats where
  lastValue : ℚ
  percentChange : Option ℚ
  rowCount : Nat
deriving DecidableEq

/-- The last two elements of a list, if it has at least two. -/
def lastTwo : List ℚ → Option (ℚ × ℚ)
  | [] => none
  | [_] => none
  | a :: b :: rest =>
    match rest with
    | [] => some (a, b)
    | _ => lastTwo (b :: rest)

/-- app.py lines 156-159 and 164: last = iloc[-1] (raising IndexError on
an empty view), change = pct_change().iloc[-1] * 100 (NaN, modelled as
none, when there is no previous row), and the row count. -/
def quickStats : Table → Except RunErr Stats
  | [] => .error .indexError
  | r :: rs =>
    .ok ⟨((r :: rs).getLast (List.cons_ne_nil r rs)).2,
      (lastTwo ((r :: rs).map Prod.snd)).map (fun pl => (pl.2 / pl.1 - 1) * 100),
      (r :: rs).length⟩

/-- Are all values of the table exactly representable at the printing
scale (nine decimal digits)?  This is the model of float64 values whose
repr the CSV round trip preserves. -/
def valsOk (t : Table) : Bool := t.all (fun r => scaleDen % r.2.den == 0)

/-! ### Decimal digit lemmas -/

/-- Value of a least-significant-first digit list. -/
def valRev : List Nat → Nat
  | [] => 0
  | d :: ds => d + 10 * valRev ds

theorem charVal_digitChar {d : Nat} (h : d < 10) : charVal (digitChar d) = d := by
  interval_cases d <;> decide

theorem isDigitChar_digitChar {d : Nat} (h : d < 10) : isDigitChar (digitChar d) = true := by
  interval_cases d <;> decide

theorem digitsRevAux_lt {fuel n : Nat} : ∀ d ∈ digitsRevAux fuel n, d < 10 := by
  induction fuel generalizing n with
  | zero => simp [digitsRevAux]
  | succ fuel ih =>
    intro d hd
    simp only [digitsRevAux] at hd
    split at hd
    · simp at hd
    · rcases List.mem_cons.1 hd with h | h
      · omega
      · exact ih d h

theorem valRev_digitsRevAux : ∀ n fuel, n ≤ fuel → valRev (digitsRevAux fuel n) = n := by
  intro n
  induction n using Nat.strong_induction_on with
  | _ n ih =>
    intro fuel hf
    cases fuel with
    | zero =>
      have : n = 0 := by omega
      subst this ; rfl
    | succ fuel =>
      by_cases h0 : n = 0
      · subst h0 ; rfl
      · have hlt : n / 10 < n := Nat.div_lt_self (by omega) (by omega)
        simp only [digitsRevAux, if_neg h0, valRev]
        rw [ih (n / 10) hlt fuel (by omega)]
        omega

theorem parseNatCore_append (xs ys : Line) :
    parseNatCore (xs ++ ys) = ys.foldl (fun a c => a * 10 + charVal c) (parseNatCore xs) := by
  simp [parseNatCore, List.foldl_append]

theorem parseNatCore_rev_digits :
    ∀ L : List Nat, (∀ d ∈ L, d < 10) → parseNatCore ((L.map digitChar).reverse) = valRev L := by
  intro L
  induction L with
  | nil => intro _ ; rfl
  | cons d ds ih =>
    intro h
    have hd : d < 10 := h d (by simp)
    simp only [List.map_cons, List.reverse_cons]
    rw [parseNatCore_append]
    simp only [List.foldl_cons, List.foldl_nil]
    rw [ih (fun x hx => h x (by simp [hx]))]
    simp [valRev, charVal_digitChar hd]
    ring

theorem parseNatCore_printNat (n : Nat) : parseNatCore (printNat n) = n := by
  by_cases h0 : n = 0
  · subst h0 ; decide
  · simp only [printNat, if_neg h0, natDigits]
    rw [List.map_reverse]
    rw [parseNatCore_rev_digits _ (fun d hd => digitsRevAux_lt d hd)]
    exact valRev_digitsRevAux n n le_rfl

theorem printNat_ne_nil (n : Nat) : printNat n ≠ [] := by
  by_cases h0 : n = 0
  · subst h0 ; decide
  · simp only [printNat, if_neg h0, natDigits]
    intro h
    apply h0
    have := valRev_digitsRevAux n n le_rfl
    rw [List.map_eq_nil_iff, List.reverse_eq_nil_iff] at h
    rw [h] at this
    simpa [valRev] using this.symm

theorem printNat_digits {n : Nat} : ∀ c ∈ printNat n, isDigitChar c = true := by
  by_cases h0 : n = 0
  · subst h0 ; decide
  · simp only [printNat, if_neg h0, natDigits]
    intro c hc
    rcases List.mem_map.1 hc with ⟨d, hd, rfl⟩
    exact isDigitChar_digitChar (digitsRevAux_lt d (List.mem_reverse.1 hd))

theorem foldl_parse_zeros (k : Nat) :
    List.foldl (fun a c => a * 10 + charVal c) 0 (List.replicate k '0') = 0 := by
  induction k with
  | zero => rfl
  | succ k ih =>
    simp only [List.replicate_succ, List.foldl_cons]
    have h : (0 : Nat) * 10 + charVal '0' = 0 := by decide
    rw [h]
    exact ih

theorem parseNatCore_zeros (k : Nat) (cs : Line) :
    parseNatCore (List.replicate k '0' ++ cs) = parseNatCore cs := by
  simp only [parseNatCore, List.foldl_append, foldl_parse_zeros]

theorem parseNatCore_padZeros (w : Nat) (cs : Line) :
    parseNatCore (padZeros w cs) = parseNatCore cs := parseNatCore_zeros _ _

theorem parseNatCore_printNatPad (w n : Nat) : parseNatCore (printNatPad w n) = n := by
  rw [printNatPad, parseNatCore_padZeros, parseNatCore_printNat]

theorem padZeros_ne_nil {w : Nat} {cs : Line} (h : cs ≠ []) : padZeros w cs ≠ [] := by
  simp [padZeros, h]

theorem printNatPad_ne_nil (w n : Nat) : printNatPad w n ≠ [] :=
  padZeros_ne_nil (printNat_ne_nil n)

theorem padZeros_digits {w : Nat} {cs : Line} (h : ∀ c ∈ cs, isDigitChar c = true) :
    ∀ c ∈ padZeros w cs, isDigitChar c = true := by
  intro c hc
  rcases List.mem_append.1 hc with hc | hc
  · rcases List.eq_of_mem_replicate hc with rfl
    decide
  · exact h c hc

theorem printNatPad_digits {w n : Nat} : ∀ c ∈ printNatPad w n, isDigitChar c = true :=
  padZeros_digits printNat_digits

theorem digitsOk_of_parts {cs : Line} (h1 : cs ≠ []) (h2 : ∀ c ∈ cs, isDigitChar c = true) :
    digitsOk cs = true := by
  cases cs with
  | nil => exact absurd rfl h1
  | cons c t =>
    simp only [digitsOk, List.isEmpty_cons, Bool.not_false, Bool.true_and, List.all_eq_true]
    exact h2

theorem digitsOk_printNatPad (w n : Nat) : digitsOk (printNatPad w n) = true :=
  digitsOk_of_parts (printNatPad_ne_nil w n) printNatPad_digits

theorem digitsRevAux_length {fuel n k : Nat} (h : n < 10 ^ k) :
    (digitsRevAux fuel n).length ≤ k := by
  induction fuel generalizing n k with
  | zero => simp [digitsRevAux]
  | succ fuel ih =>
    by_cases h0 : n = 0
    · subst h0 ; simp [digitsRevAux]
    · have hk : k ≠ 0 := by
        intro hk ; subst hk ; simp at h ; omega
      obtain ⟨k', rfl⟩ : ∃ k', k = k' + 1 := ⟨k - 1, by omega⟩
      simp only [digitsRevAux, if_neg h0, List.length_cons]
      have hdiv : n / 10 < 10 ^ k' := by
        rw [Nat.div_lt_iff_lt_mul (by norm_num)]
        calc n < 10 ^ (k' + 1) := h
        _ = 10 ^ k' * 10 := by ring
      have := ih hdiv
      omega

theorem printNat_length {n k : Nat} (h : n < 10 ^ k) (hk : 1 ≤ k) :
    (printNat n).length ≤ k := by
  by_cases h0 : n = 0
  · subst h0 ; simpa [printNat]
  · simp only [printNat, if_neg h0, natDigits, List.length_map, List.length_reverse]
    exact digitsRevAux_length h

theorem padZeros_length {w : Nat} {cs : Line} (h : cs.length ≤ w) :
    (padZeros w cs).length = w := by
  simp [padZeros]
  omega

theorem printNatPad_length {w n : Nat} (h : n < 10 ^ w) (hw : 1 ≤ w) :
    (printNatPad w n).length = w :=
  padZeros_length (printNat_length h hw)

/-! ### splitSep lemmas -/

theorem splitSep_ne_nil (sep : Char) (cs : List Char) : splitSep sep cs ≠ [] := by
  cases cs with
  | nil => simp [splitSep]
  | cons c cs =>
    unfold splitSep
    cases h : splitSep sep cs with
    | nil => simp
    | cons f rest => by_cases hc : (c == sep) = true <;> simp [hc]

theorem splitSep_not_mem {sep : Char} {cs : List Char} (h : sep ∉ cs) :
    splitSep sep cs = [cs] := by
  induction cs with
  | nil => rfl
  | cons c cs ih =>
    have hc : (c == sep) = false := by
      rw [beq_eq_false_iff_ne]
      intro e
      exact h (e ▸ List.mem_cons_self c cs)
    have hmem : sep ∉ cs := fun hx => h (List.mem_cons_of_mem c hx)
    unfold splitSep
    rw [ih hmem]
    simp [hc]

theorem splitSep_append {sep : Char} {xs : List Char} (ys : List Char) (h : sep ∉ xs) :
    splitSep sep (xs ++ sep :: ys) = xs :: splitSep sep ys := by
  induction xs with
  | nil =>
    simp only [List.nil_append]
    conv_lhs => unfold splitSep
    cases hy : splitSep sep ys with
    | nil => exact absurd hy (splitSep_ne_nil sep ys)
    | cons f rest => simp [hy]
  | cons x xs ih =>
    have hx : (x == sep) = false := by
      rw [beq_eq_false_iff_ne]
      intro e
      exact h (e ▸ List.mem_cons_self x xs)
    have hmem : sep ∉ xs := fun hm => h (List.mem_cons_of_mem x hm)
    simp only [List.cons_append]
    conv_lhs => unfold splitSep
    rw [ih hmem]
    simp [hx]

theorem not_mem_of_digits {cs : Line} (h : ∀ c ∈ cs, isDigitChar c = true) {x : Char}
    (hx : isDigitChar x = false) : x ∉ cs := by
  intro hm
  rw [h x hm] at hx
  cases hx

/-! ### Date and value round trips -/

theorem parseDate_printDate (d : Nat) : parseDate (printDate d) = some d := by
  have nd4 : '-' ∉ printNatPad 4 (d / 10000) :=
    not_mem_of_digits printNatPad_digits (by decide)
  have nd2 : '-' ∉ printNatPad 2 (d / 100 % 100) :=
    not_mem_of_digits printNatPad_digits (by decide)
  have nd2' : '-' ∉ printNatPad 2 (d % 100) :=
    not_mem_of_digits printNatPad_digits (by decide)
  unfold parseDate printDate
  simp only [List.cons_append, List.append_assoc]
  rw [splitSep_append _ nd4, splitSep_append _ nd2, splitSep_not_mem nd2']
  simp only [digitsOk_printNatPad, Bool.and_self, if_true, parseNatCore_printNatPad]
  congr 1
  omega

theorem printDate_chars {d : Nat} : ∀ c ∈ printDate d, isDigitChar c = true ∨ c = '-' := by
  intro c hc
  unfold printDate at hc
  rcases List.mem_append.1 hc with h12 | h3
  · rcases List.mem_append.1 h12 with h1 | h2
    · exact Or.inl (printNatPad_digits c h1)
    · rcases List.mem_cons.1 h2 with h | h
      · exact Or.inr h
      · exact Or.inl (printNatPad_digits c h)
  · rcases List.mem_cons.1 h3 with h | h
    · exact Or.inr h
    · exact Or.inl (printNatPad_digits c h)

theorem printDate_ne_nil (d : Nat) : printDate d ≠ [] := by
  unfold printDate
  intro h
  rcases List.append_eq_nil.1 h with ⟨-, h2⟩
  exact List.cons_ne_nil _ _ h2

theorem parseUVal_print (A B : Nat) (hB : B < 10 ^ 9) :
    parseUVal (printNat A ++ '.' :: printNatPad 9 B) =
      some ((A : ℚ) + (B : ℚ) / (10 : ℚ) ^ 9) := by
  have np : '.' ∉ printNat A := not_mem_of_digits printNat_digits (by decide)
  have npad : '.' ∉ printNatPad 9 B := not_mem_of_digits printNatPad_digits (by decide)
  unfold parseUVal
  rw [splitSep_append _ np, splitSep_not_mem npad]
  have hw : (printNat A).all isDigitChar = true := List.all_eq_true.2 printNat_digits
  have hfr : (printNatPad 9 B).all isDigitChar = true := List.all_eq_true.2 printNatPad_digits
  have hne : (printNat A).isEmpty = false := by
    cases h : printNat A with
    | nil => exact absurd h (printNat_ne_nil A)
    | cons c t => rfl
  simp only [hw, hfr, hne, Bool.and_true, Bool.true_and, Bool.and_false, Bool.false_and,
    Bool.not_false, if_pos, parseNatCore_printNat, parseNatCore_printNatPad]
  rw [printNatPad_length hB (by norm_num)]

theorem parseVal_printVal {q : ℚ} (h : scaleDen % q.den = 0) :
    parseVal (printVal q) = some q := by
  have hden : (q.den : ℤ) ∣ (scaleDen : ℤ) :=
    Int.natCast_dvd_natCast.2 (Nat.dvd_of_mod_eq_zero h)
  have hdenq : ((q.den : ℚ)) ≠ 0 := by
    exact_mod_cast q.den_nz
  have hscq : ((scaleDen : Nat) : ℚ) ≠ 0 := by norm_num [scaleDen]
  have hc : (q.den : ℤ) * ((scaleDen : ℤ) / (q.den : ℤ)) = (scaleDen : ℤ) :=
    Int.mul_ediv_cancel' hden
  have hcq : (q.den : ℚ) * (((scaleDen : ℤ) / (q.den : ℤ) : ℤ) : ℚ) = ((scaleDen : Nat) : ℚ) := by
    exact_mod_cast congrArg (fun z : ℤ => (z : ℚ)) hc
  have hqden : q * (q.den : ℚ) = (q.num : ℚ) := by
    nth_rewrite 1 [← Rat.num_div_den q]
    exact div_mul_cancel₀ _ hdenq
  set m : ℤ := q.num * ((scaleDen : ℤ) / (q.den : ℤ)) with hmdef
  have hmq : (m : ℚ) = q * ((scaleDen : Nat) : ℚ) := by
    rw [hmdef]
    push_cast
    rw [← hqden, ← hcq]
    ring
  have hq_eq : q = (m : ℚ) / ((scaleDen : Nat) : ℚ) := by
    rw [hmq]
    field_simp
  have hsc : ((scaleDen : Nat) : ℚ) = (10 : ℚ) ^ 9 := by norm_num [scaleDen]
  have hB : m.natAbs % scaleDen < 10 ^ 9 := by
    have h9 : (0 : Nat) < scaleDen := by norm_num [scaleDen]
    have := Nat.mod_lt m.natAbs h9
    have hscn : scaleDen = 10 ^ 9 := by norm_num [scaleDen]
    omega
  have habq : ((m.natAbs / scaleDen : Nat) : ℚ) + ((m.natAbs % scaleDen : Nat) : ℚ) / (10 : ℚ) ^ 9
      = ((m.natAbs : Nat) : ℚ) / (10 : ℚ) ^ 9 := by
    have hsplit : m.natAbs / scaleDen * scaleDen + m.natAbs % scaleDen = m.natAbs := by
      rw [Nat.mul_comm (m.natAbs / scaleDen) scaleDen]
      exact Nat.div_add_mod _ _
    have hs : ((m.natAbs : Nat) : ℚ)
        = ((m.natAbs / scaleDen : Nat) : ℚ) * (10 : ℚ) ^ 9 + ((m.natAbs % scaleDen : Nat) : ℚ) := by
      rw [← hsc]
      exact_mod_cast hsplit.symm
    rw [hs]
    field_simp
  by_cases hm : m < 0
  · have hprint : printVal q
        = '-' :: (printNat (m.natAbs / scaleDen) ++ '.' :: printNatPad 9 (m.natAbs % scaleDen)) := by
      unfold printVal
      rw [← hmdef, if_pos hm]
      simp [List.cons_append]
    rw [hprint]
    unfold parseVal
    rw [if_pos (by simp)]
    simp only [List.tail_cons]
    rw [parseUVal_print _ _ hB]
    have ha : ((m.natAbs : Nat) : ℚ) = -(m : ℚ) := by
      rw [Int.cast_natAbs]
      exact_mod_cast abs_of_neg hm
    simp only [Option.map_some']
    congr 1
    rw [habq, ha, hq_eq, hsc]
    ring
  · have hprint : printVal q
        = printNat (m.natAbs / scaleDen) ++ '.' :: printNatPad 9 (m.natAbs % scaleDen) := by
      unfold printVal
      rw [← hmdef, if_neg hm, List.nil_append]
    obtain ⟨c, t, hct⟩ : ∃ c t, printNat (m.natAbs / scaleDen) = c :: t := by
      cases hpn : printNat (m.natAbs / scaleDen) with
      | nil => exact absurd hpn (printNat_ne_nil _)
      | cons c t => exact ⟨c, t, rfl⟩
    have hcdig : isDigitChar c = true :=
      printNat_digits c (by rw [hct] ; exact List.mem_cons_self _ _)
    have hcne : (c == '-') = false := by
      rw [beq_eq_false_iff_ne]
      intro e
      subst e
      exact absurd hcdig (by decide)
    rw [hprint, hct, List.cons_append]
    unfold parseVal
    rw [List.headD_cons, hcne, if_neg Bool.false_ne_true]
    rw [← List.cons_append, ← hct]
    rw [parseUVal_print _ _ hB]
    have ha : ((m.natAbs : Nat) : ℚ) = (m : ℚ) := by
      rw [Int.cast_natAbs]
      exact_mod_cast abs_of_nonneg (le_of_not_lt hm)
    congr 1
    rw [habq, ha, hq_eq, hsc]

theorem printVal_chars {q : ℚ} :
    ∀ c ∈ printVal q, isDigitChar c = true ∨ c = '-' ∨ c = '.' := by
  intro c hc
  unfold printVal at hc
  rcases List.mem_append.1 hc with h12 | h3
  · rcases List.mem_append.1 h12 with h1 | h2
    · split at h1
      · rcases List.mem_cons.1 h1 with h | h
        · exact Or.inr (Or.inl h)
        · simp at h
      · simp at h1
    · exact Or.inl (printNat_digits c h2)
  · rcases List.mem_cons.1 h3 with h | h
    · exact Or.inr (Or.inr h)
    · exact Or.inl (printNatPad_digits c h)

theorem printVal_ne_nil (q : ℚ) : printVal q ≠ [] := by
  unfold printVal
  intro h
  rcases List.append_eq_nil.1 h with ⟨-, h2⟩
  exact List.cons_ne_nil _ _ h2

/-! ### Sorting lemmas -/

theorem keysSorted_cons_cons {α : Type} {r s : Nat × α} {t : List (Nat × α)} :
    keysSorted (r :: s :: t) = true ↔ (r.1 ≤ s.1 ∧ keysSorted (s :: t) = true) := by
  unfold keysSorted
  simp only [List.map_cons, natSorted, Bool.and_eq_true, decide_eq_true_eq]

theorem keysSorted_tail {α : Type} {s : Nat × α} {t : List (Nat × α)}
    (h : keysSorted (s :: t) = true) : keysSorted t = true := by
  cases t with
  | nil => rfl
  | cons u t' => exact (keysSorted_cons_cons.1 h).2

theorem insertRow_cons {α : Type} (r s : Nat × α) (t : List (Nat × α)) :
    insertRow r (s :: t) = if r.1 ≤ s.1 then r :: s :: t else s :: insertRow r t := rfl

theorem insertRow_cases {α : Type} (r : Nat × α) (l : List (Nat × α)) :
    insertRow r l = r :: l ∨
      ∃ s t, l = s :: t ∧ ¬r.1 ≤ s.1 ∧ insertRow r l = s :: insertRow r t := by
  cases l with
  | nil => exact Or.inl rfl
  | cons s t =>
    by_cases h : r.1 ≤ s.1
    · exact Or.inl (by rw [insertRow_cons, if_pos h])
    · exact Or.inr ⟨s, t, rfl, h, by rw [insertRow_cons, if_neg h]⟩


theorem insertRow_sorted {α : Type} (r : Nat × α) :
    ∀ {l : List (Nat × α)}, keysSorted l = true → keysSorted (insertRow r l) = true := by
  intro l
  induction l with
  | nil => intro _ ; rfl
  | cons s t ih =>
    intro h
    have ht : keysSorted t = true := keysSorted_tail h
    by_cases hle : r.1 ≤ s.1
    · rw [insertRow_cons, if_pos hle]
      exact keysSorted_cons_cons.2 ⟨hle, h⟩
    · rw [insertRow_cons, if_neg hle]
      have hins := ih ht
      rcases insertRow_cases r t with hcase | ⟨u, t', ht', hru, hcase⟩



      · rw [hcase]
        exact keysSorted_cons_cons.2 ⟨le_of_not_le hle, hcase ▸ hins⟩
      · rw [hcase]
        have hsu : s.1 ≤ u.1 := by
          rw [ht'] at h
          exact (keysSorted_cons_cons.1 h).1
        exact keysSorted_cons_cons.2 ⟨hsu, hcase ▸ hins⟩

theorem sortRows_sorted {α : Type} (l : List (Nat × α)) : keysSorted (sortRows l) = true := by
  induction l with
  | nil => rfl
  | cons r t ih => exact insertRow_sorted r ih

theorem insertRow_perm {α : Type} (r : Nat × α) (l : List (Nat × α)) :
    List.Perm (insertRow r l) (r :: l) := by
  induction l with
  | nil => exact List.Perm.refl _
  | cons s t ih =>
    by_cases h : r.1 ≤ s.1
    · rw [insertRow_cons, if_pos h]
    · rw [insertRow_cons, if_neg h]
      exact (ih.cons s).trans (List.Perm.swap r s t)

theorem sortRows_perm {α : Type} (l : List (Nat × α)) : List.Perm (sortRows l) l := by
  induction l with
  | nil => exact List.Perm.refl _
  | cons r t ih => exact (insertRow_perm r (sortRows t)).trans (ih.cons r)

theorem sortRows_eq_self {α : Type} :
    ∀ {l : List (Nat × α)}, keysSorted l = true → sortRows l = l := by
  intro l
  induction l with
  | nil => intro _ ; rfl
  | cons r t ih =>
    intro h
    have ht : keysSorted t = true := keysSorted_tail h
    show insertRow r (sortRows t) = r :: t
    rw [ih ht]
    cases t with
    | nil => rfl
    | cons s t' =>
      have hrs : r.1 ≤ s.1 := (keysSorted_cons_cons.1 h).1
      rw [insertRow_cons, if_pos hrs]

/-! ### Header-scan lemmas -/

theorem findIdx?_none_of_all_false {α : Type} {p : α → Bool} :
    ∀ (l : List α) (i : Nat), (∀ x ∈ l, p x = false) → List.findIdx? p l i = none := by
  intro l
  induction l with
  | nil => intro i _ ; rfl
  | cons x t ih =>
    intro i h
    rw [List.findIdx?_cons, h x (List.mem_cons_self x t), if_neg Bool.false_ne_true]
    exact ih (i + 1) (fun y hy => h y (List.mem_cons_of_mem x hy))

theorem findIdx?_append_skip {α : Type} {p : α → Bool} :
    ∀ (meta : List α) (l : List α) (i : Nat), (∀ x ∈ meta, p x = false) →
      List.findIdx? p (meta ++ l) i = List.findIdx? p l (i + meta.length) := by
  intro meta
  induction meta with
  | nil => intro l i _ ; rfl
  | cons m meta ih =>
    intro l i h
    rw [List.cons_append, List.findIdx?_cons, h m (List.mem_cons_self m meta),
      if_neg Bool.false_ne_true, ih l (i + 1) (fun y hy => h y (List.mem_cons_of_mem m hy))]
    congr 1
    simp
    omega

/-! ### Export / load round-trip lemmas -/

theorem joinNl_split {ls : List Line} (h : ∀ l ∈ ls, '\n' ∉ l) :
    splitSep '\n' (joinNl ls) = ls ++ [[]] := by
  induction ls with
  | nil => rfl
  | cons l rest ih =>
    show splitSep '\n' (l ++ '\n' :: joinNl rest) = _
    rw [splitSep_append _ (h l (List.mem_cons_self l rest)),
      ih (fun x hx => h x (List.mem_cons_of_mem l hx))]
    rfl

theorem comma_not_mem_printDate (d : Nat) : ',' ∉ printDate d := by
  intro hm
  rcases printDate_chars ',' hm with h | h
  · exact absurd h (by decide)
  · exact absurd h (by decide)

theorem comma_not_mem_printVal (q : ℚ) : ',' ∉ printVal q := by
  intro hm
  rcases printVal_chars ',' hm with h | h | h
  · exact absurd h (by decide)
  · exact absurd h (by decide)
  · exact absurd h (by decide)

theorem nl_not_mem_csvRow (r : Nat × ℚ) : '\n' ∉ csvRow r := by
  intro hm
  unfold csvRow at hm
  rcases List.mem_append.1 hm with h | h
  · rcases printDate_chars '\n' h with h' | h'
    · exact absurd h' (by decide)
    · exact absurd h' (by decide)
  · rcases List.mem_cons.1 h with h' | h'
    · exact absurd h' (by decide)
    · rcases printVal_chars '\n' h' with h'' | h'' | h''
      · exact absurd h'' (by decide)
      · exact absurd h'' (by decide)
      · exact absurd h'' (by decide)

theorem splitSep_csvRow (r : Nat × ℚ) :
    splitSep ',' (csvRow r) = [printDate r.1, printVal r.2] := by
  unfold csvRow
  rw [splitSep_append _ (comma_not_mem_printDate r.1),
    splitSep_not_mem (comma_not_mem_printVal r.2)]

theorem csvRow_ne_nil (r : Nat × ℚ) : csvRow r ≠ [] := by
  unfold csvRow
  intro h
  rcases List.append_eq_nil.1 h with ⟨-, h2⟩
  exact List.cons_ne_nil _ _ h2

theorem parseRows_csv (t : Table) :
    parseRows 2 (t.map csvRow) = .ok (t.map (fun r => (r.1, [printVal r.2]))) := by
  induction t with
  | nil => rfl
  | cons r rest ih =>
    show parseRows 2 (csvRow r :: rest.map csvRow) = _
    unfold parseRows
    simp only [splitSep_csvRow, List.length_cons, List.length_nil, List.headD_cons,
      List.tail_cons, if_pos]
    rw [parseDate_printDate, ih]
    rfl

theorem parseColumn_print {t : Table} (hv : valsOk t = true) :
    parseColumn 0 (t.map (fun r => (r.1, [printVal r.2]))) = .ok t := by
  induction t with
  | nil => rfl
  | cons r rest ih =>
    have hall := List.all_eq_true.1 hv
    have hr : scaleDen % r.2.den = 0 := by
      simpa using hall r (List.mem_cons_self r rest)
    have hrest : valsOk rest = true :=
      List.all_eq_true.2 (fun x hx => hall x (List.mem_cons_of_mem r hx))
    show parseColumn 0 ((r.1, [printVal r.2]) :: rest.map _) = _
    unfold parseColumn
    simp only [List.getD_cons_zero]
    rw [parseVal_printVal hr, ih hrest]
    rfl

theorem filter_csv_lines (t : Table) :
    (t.map csvRow ++ [[]]).filter (fun l => !l.isEmpty) = t.map csvRow := by
  rw [List.filter_append]
  have h1 : (t.map csvRow).filter (fun l => !l.isEmpty) = t.map csvRow := by
    apply List.filter_eq_self.2
    intro l hl
    rcases List.mem_map.1 hl with ⟨r, -, rfl⟩
    cases hc : csvRow r with
    | nil => exact absurd hc (csvRow_ne_nil r)
    | cons c cs => simp
  have h2 : ([[]] : List Line).filter (fun l => !l.isEmpty) = [] := rfl
  rw [h1, h2, List.append_nil]

theorem keysSorted_map_snd {α β : Type} (g : Nat × α → β) (t : List (Nat × α)) :
    keysSorted (t.map (fun r => (r.1, g r))) = keysSorted t := by
  unfold keysSorted
  rw [List.map_map]
  rfl

theorem exportHeader_isHeader : isHeaderLine (dateColTarget ++ ',' :: valueColName) = true := by
  decide

theorem loadLines_header {h0 : Line} (lines : List Line) (hh : isHeaderLine h0 = true) :
    loadLines (h0 :: lines) = (readCsv (h0 :: lines)).map (fun f => dateFix (stripCols f)) := by
  unfold loadLines
  rw [List.findIdx?_cons, if_pos hh]
  rfl

theorem readCsv_export (t : Table) :
    readCsv ((dateColTarget ++ ',' :: valueColName) :: (t.map csvRow ++ [[]]))
      = .ok ⟨dateColTarget, [valueColName], t.map (fun r => (r.1, [printVal r.2])), false⟩ := by
  unfold readCsv
  rw [List.filter_cons_of_pos (by decide), filter_csv_lines]
  show (parseRows (splitSep ',' (dateColTarget ++ ',' :: valueColName)).length (t.map csvRow)).map
      (fun rs => Frame.mk ((splitSep ',' (dateColTarget ++ ',' :: valueColName)).headD [])
        (splitSep ',' (dateColTarget ++ ',' :: valueColName)).tail rs false) = _
  rw [show splitSep ',' (dateColTarget ++ ',' :: valueColName) = [dateColTarget, valueColName]
    from by decide]
  show (parseRows 2 (t.map csvRow)).map (fun rs => Frame.mk dateColTarget [valueColName] rs false) = _
  rw [parseRows_csv]
  rfl

/-- The whole round trip on a sorted table of exactly-representable
values: exporting and re-loading gives back the same table. -/
theorem pipeline_roundtrip (t : Table) (hs : keysSorted t = true) (hv : valsOk t = true) :
    pipelineLoad (exportCsv t) = .ok t := by
  have hnl : ∀ l ∈ (dateColTarget ++ ',' :: valueColName) :: t.map csvRow, '\n' ∉ l := by
    intro l hl
    rcases List.mem_cons.1 hl with rfl | hl
    · decide
    · rcases List.mem_map.1 hl with ⟨r, -, rfl⟩
      exact nl_not_mem_csvRow r
  unfold pipelineLoad loadText exportCsv
  rw [joinNl_split hnl, List.cons_append, loadLines_header _ exportHeader_isHeader,
    readCsv_export]
  have hstrip : stripCols (Frame.mk dateColTarget [valueColName]
      (t.map (fun r => (r.1, [printVal r.2]))) false)
      = Frame.mk dateColTarget [valueColName] (t.map (fun r => (r.1, [printVal r.2]))) false := by
    show Frame.mk (trimL dateColTarget) ([valueColName].map trimL) _ false = _
    rw [show trimL dateColTarget = dateColTarget from by decide,
      show [valueColName].map trimL = [valueColName] from by decide]
  have hsorted : keysSorted (t.map (fun r => (r.1, [printVal r.2]))) = true := by
    rw [keysSorted_map_snd]
    exact hs
  have hfix : dateFix (Frame.mk dateColTarget [valueColName]
      (t.map (fun r => (r.1, [printVal r.2]))) false)
      = Frame.mk dateColTarget [valueColName] (t.map (fun r => (r.1, [printVal r.2]))) true := by
    unfold dateFix
    rw [if_pos rfl, sortRows_eq_self hsorted]
  show (valueFix (dateFix (stripCols (Frame.mk dateColTarget [valueColName]
      (t.map (fun r => (r.1, [printVal r.2]))) false)))).bind toTable = _
  rw [hstrip, hfix]
  have hvfix : valueFix (Frame.mk dateColTarget [valueColName]
      (t.map (fun r => (r.1, [printVal r.2]))) true)
      = .ok (Frame.mk dateColTarget [valueColName] (t.map (fun r => (r.1, [printVal r.2]))) true) := by
    have hmem : valueColName ∈ columnsOf (Frame.mk dateColTarget [valueColName]
        (t.map (fun r => (r.1, [printVal r.2]))) true) := List.mem_cons_self valueColName []
    unfold valueFix
    rw [if_pos hmem]
  rw [hvfix]
  show toTable (Frame.mk dateColTarget [valueColName]
      (t.map (fun r => (r.1, [printVal r.2]))) true) = _
  show parseColumn 0 (t.map (fun r => (r.1, [printVal r.2]))) = _
  exact parseColumn_print hv

/-! ### Sortedness bridges and filter preservation -/

theorem natSorted_iff_chain {ks : List Nat} :
    natSorted ks = true ↔ List.Chain' (· ≤ ·) ks := by
  induction ks with
  | nil => simp [natSorted]
  | cons a t ih =>
    cases t with
    | nil => simp [natSorted]
    | cons b u =>
      rw [List.chain'_cons]
      show (decide (a ≤ b) && natSorted (b :: u)) = true ↔ _
      rw [Bool.and_eq_true, decide_eq_true_eq, ih]

theorem keysSorted_iff_pairwise {α : Type} {l : List (Nat × α)} :
    keysSorted l = true ↔ List.Pairwise (fun a b : Nat × α => a.1 ≤ b.1) l := by
  unfold keysSorted
  rw [natSorted_iff_chain, List.chain'_iff_pairwise, List.pairwise_map]

theorem keysSorted_filter {α : Type} (p : Nat × α → Bool) {l : List (Nat × α)}
    (h : keysSorted l = true) : keysSorted (l.filter p) = true := by
  rw [keysSorted_iff_pairwise] at h ⊢
  exact List.Pairwise.sublist (List.filter_sublist l) h

theorem keysSorted_filterView {t : Table} (s e : Nat) (h : keysSorted t = true) :
    keysSorted (filterView t s e) = true := keysSorted_filter _ h

theorem valsOk_filterView {t : Table} (s e : Nat) (hv : valsOk t = true) :
    valsOk (filterView t s e) = true := by
  unfold valsOk at hv ⊢
  rw [List.all_eq_true] at hv ⊢
  intro x hx
  exact hv x (List.mem_of_mem_filter hx)

theorem sorted_le_getLast {α : Type} :
    ∀ {l : List (Nat × α)} (h : keysSorted l = true) (hne : l ≠ []) (r : Nat × α),
      r ∈ l → r.1 ≤ (l.getLast hne).1 := by
  intro l
  induction l with
  | nil => intro _ hne ; exact absurd rfl hne

  | cons s t ih =>
    intro h hne r hr
    cases t with
    | nil =>
      rcases List.mem_cons.1 hr with rfl | hr'
      · exact le_refl _
      · cases hr'
    | cons u v =>
      have hlast : (s :: u :: v).getLast hne = (u :: v).getLast (List.cons_ne_nil u v) :=
        List.getLast_cons (List.cons_ne_nil u v)
      rcases List.mem_cons.1 hr with rfl | hr'
      · have h1 : r.1 ≤ u.1 := (keysSorted_cons_cons.1 h).1
        have h2 : u.1 ≤ ((u :: v).getLast (List.cons_ne_nil u v)).1 :=
          ih (keysSorted_tail h) (List.cons_ne_nil u v) u (List.mem_cons_self u v)
        rw [hlast]
        exact le_trans h1 h2
      · rw [hlast]
        exact ih (keysSorted_tail h) (List.cons_ne_nil u v) r hr'

/-! ### lastTwo specification -/

theorem lastTwo_eq : ∀ l : List ℚ,
    lastTwo l = (l.dropLast.getLast?).bind (fun p => l.getLast?.map (fun x => (p, x))) := by
  intro l
  induction l with
  | nil => rfl
  | cons a t ih =>
    cases t with
    | nil => rfl
    | cons b u =>
      cases u with
      | nil => rfl
      | cons c v =>
        show lastTwo (b :: c :: v) = _
        rw [ih]
        simp only [List.dropLast_cons₂, List.getLast?_cons_cons]

/-! ### First-index lemmas for the value-column scan -/

theorem firstIdxAux_map_succ (p : Nat → Bool) :
    ∀ l : List Nat, firstIdxAux p (l.map (· + 1))
      = (firstIdxAux (fun i => p (i + 1)) l).map (· + 1) := by
  intro l
  induction l with
  | nil => rfl
  | cons j js ih =>
    show firstIdxAux p ((j + 1) :: js.map (· + 1)) = _
    unfold firstIdxAux
    by_cases h : p (j + 1) = true
    · rw [if_pos h, if_pos h]
      rfl
    · rw [if_neg h, if_neg h]
      exact ih

theorem firstIdxAux_range_none :
    ∀ (n : Nat) (p : Nat → Bool), (∀ j < n, p j = false) →
      firstIdxAux p (List.range n) = none := by
  intro n
  induction n with
  | zero => intro p _ ; rfl
  | succ n ih =>
    intro p h
    rw [List.range_succ_eq_map]
    unfold firstIdxAux
    rw [if_neg (by rw [h 0 (Nat.succ_pos n)] ; exact Bool.false_ne_true)]
    rw [firstIdxAux_map_succ, ih (fun i => p (i + 1)) (fun j hj => h (j + 1) (by omega))]
    rfl

theorem firstIdxAux_range_some :
    ∀ (n : Nat) (p : Nat → Bool) (j : Nat), j < n → p j = true → (∀ i < j, p i = false) →
      firstIdxAux p (List.range n) = some j := by
  intro n
  induction n with
  | zero => intro p j hj ; omega
  | succ n ih =>
    intro p j hj hpj hlt
    rw [List.range_succ_eq_map]
    unfold firstIdxAux
    cases j with
    | zero => rw [if_pos hpj]
    | succ i =>
      rw [if_neg (by rw [hlt 0 (Nat.succ_pos i)] ; exact Bool.false_ne_true)]
      rw [firstIdxAux_map_succ,
        ih (fun i' => p (i' + 1)) i (by omega) hpj (fun i' hi' => hlt (i' + 1) (by omega))]
      rfl

/-! ### Claims -/

/-- C1: the claim says summarize on an empty view raises a distinct,
catchable EmptyViewError; the code (app.py line 157) instead hits the
unguarded iloc[-1], i.e. an IndexError crash.  This theorem evaluates the
code's behaviour at the failing input: the error raised is the
index-error crash and not the EmptyViewError the spec mandates. -/
theorem c1_summarize_empty_crashes :
    quickStats ([] : Table) = .error RunErr.indexError ∧
      RunErr.indexError ≠ RunErr.emptyView :=
  ⟨rfl, by decide⟩

/-- C2: the claim says resample with the monthly frequency groups rows
into calendar-month buckets and replaces each bucket's value by the
arithmetic mean; but the view the app resamples never carries the
DatetimeIndex pandas requires — the Date path's index holds
datetime.date objects (object dtype, set via .dt.date then set_index,
app.py lines 31-33 and 87-94) and the fallback path keeps the default
range index — so the resample("M").mean() calls at lines 126 and 165
raise TypeError on every input, including the spec's concrete scenario,
and no monthly aggregation is ever produced. -/
theorem c2_resample_monthly_crashes :
    (∀ (indexed : Bool) (t : Table), appResampleMonthly indexed t = .error .typeError) ∧
      appResampleMonthly true [(20200101, (10 : ℚ)), (20200102, 20), (20200201, 30)]
        = .error .typeError := by
  constructor
  · intro b t
    cases b <;> rfl
  · rfl

/-- C3 counterexample: an accepted input with no header line (the
fallback path) whose rows come back in input order — not sorted
ascending by date — and without the date index set, refuting "this
invariant is enforced by the Loader on every path, including the
no-header fallback path". -/
theorem c3_counterexample :
    loadLines ["Time,Value".toList, "2020-02-01,1.0".toList, "2020-01-01,2.0".toList]
        = .ok (Frame.mk "Time".toList ["Value".toList]
            [(20200201, ["1.0".toList]), (20200101, ["2.0".toList])] false) ∧
      keysSorted [(20200201, (["1.0".toList] : List Line)), (20200101, ["2.0".toList])]
        = false ∧
      (Frame.mk "Time".toList ["Value".toList]
          [(20200201, ["1.0".toList]), (20200101, ["2.0".toList])] false).indexed = false := by
  decide

/-- C3 (amended): only on the path where a header line is found and the
stripped first column is named "Date" does the loader sort ascending by
date and set the date index; there duplicate dates are preserved, not
deduplicated (the output is a permutation of the parsed rows).  On the
no-header fallback path rows pass through in input order, unsorted and
unindexed. -/
theorem c3_loader_invariant (lines : List Line) (i : Nat) (f0 : Frame)
    (hidx : lines.findIdx? isHeaderLine = some i)
    (hread : (readCsv (lines.drop i)).map stripCols = .ok f0)
    (hdate : f0.dateName = dateColTarget) :
    loadLines lines = .ok (Frame.mk f0.dateName f0.cols (sortRows f0.rows) true) ∧
      keysSorted (sortRows f0.rows) = true ∧
      List.Perm (sortRows f0.rows) f0.rows := by
  refine ⟨?_, sortRows_sorted f0.rows, sortRows_perm f0.rows⟩
  unfold loadLines
  rw [hidx]
  show (readCsv (lines.drop i)).map (fun f => dateFix (stripCols f)) = _
  cases hcsv : readCsv (lines.drop i) with
  | error e =>
    rw [hcsv] at hread
    exact absurd hread (by simp [Except.map])
  | ok g =>
    rw [hcsv] at hread
    have hg : stripCols g = f0 := by
      simpa [Except.map] using hread
    show Except.ok (dateFix (stripCols g)) = _
    rw [hg]
    unfold dateFix
    rw [if_pos hdate]

/-- C3 witness: the amended theorem applied to a concrete input with two
metadata lines, out-of-order rows and a duplicate date. -/
theorem c3_loader_invariant_witness :
    loadLines ["junk".toList, "Date,Value".toList, "2020-01-02,1.0".toList,
        "2020-01-01,2.0".toList, "2020-01-01,3.0".toList]
      = .ok (Frame.mk "Date".toList ["Value".toList]
          (sortRows [(20200102, ["1.0".toList]), (20200101, ["2.0".toList]),
            (20200101, ["3.0".toList])]) true) ∧
      keysSorted (sortRows [(20200102, (["1.0".toList] : List Line)),
        (20200101, ["2.0".toList]), (20200101, ["3.0".toList])]) = true ∧
      List.Perm (sortRows [(20200102, (["1.0".toList] : List Line)),
          (20200101, ["2.0".toList]), (20200101, ["3.0".toList])])
        [(20200102, ["1.0".toList]), (20200101, ["2.0".toList]), (20200101, ["3.0".toList])] :=
  c3_loader_invariant _ 1
    (Frame.mk "Date".toList ["Value".toList]
      [(20200102, ["1.0".toList]), (20200101, ["2.0".toList]), (20200101, ["3.0".toList])] false)
    (by decide) (by decide) (by decide)

/-- C4: rolling_mean with window w ≥ 2 has output length equal to input
length, its first element equals the first input value exactly, position
i averages the min(i+1, w) most recent values (so no position is
missing), and the chart overlay is computed from the filtered view for
every resample frequency alike. -/
theorem c4_rolling_mean (w : Nat) (hw : 2 ≤ w) (xs : List ℚ) :
    (rollingMean w xs).length = xs.length ∧
      (xs ≠ [] → (rollingMean w xs).head? = xs.head?) ∧
      (∀ i, i < xs.length →
        (rollingMean w xs)[i]? = some (sumList (windowSlice w xs i) / ((min (i + 1) w : Nat) : ℚ)) ∧
        (windowSlice w xs i).length = min (i + 1) w) ∧
      (∀ (view : Table) (f1 f2 : Freq), chartOverlay view f1 w = chartOverlay view f2 w) := by
  have hwin : ∀ i, i < xs.length → (windowSlice w xs i).length = min (i + 1) w := by
    intro i hi
    unfold windowSlice
    rw [List.length_drop, List.length_take]
    omega
  have hget : ∀ i, i < xs.length →
      (rollingMean w xs)[i]?
        = some (sumList (windowSlice w xs i) / ((min (i + 1) w : Nat) : ℚ)) := by
    intro i hi
    unfold rollingMean
    rw [List.getElem?_map, List.getElem?_range hi]
    show some (sumList (windowSlice w xs i) / ((windowSlice w xs i).length : ℚ)) = _
    rw [hwin i hi]
  refine ⟨?_, ?_, fun i hi => ⟨hget i hi, hwin i hi⟩, fun _ _ _ => rfl⟩
  · unfold rollingMean
    rw [List.length_map, List.length_range]
  · intro hne
    cases xs with
    | nil => exact absurd rfl hne
    | cons x rest =>
      rw [List.head?_eq_getElem?, List.head?_eq_getElem?, hget 0 (Nat.succ_pos rest.length)]
      have hw0 : windowSlice w (x :: rest) 0 = [x] := by
        unfold windowSlice
        rw [show 0 + 1 - w = 0 from by omega, List.drop_zero, List.take_succ_cons, List.take_zero]
      rw [hw0, List.getElem?_cons_zero, min_eq_left (by omega : 0 + 1 ≤ w)]
      show some ((x + 0) / ((0 + 1 : Nat) : ℚ)) = some x
      norm_num

/-- C4 witness: the theorem applied at window 3 and a concrete
four-element series. -/
theorem c4_rolling_mean_witness :
    (rollingMean 3 [(1 : ℚ), 2, 3, 4]).length = ([(1 : ℚ), 2, 3, 4] : List ℚ).length ∧
      (([(1 : ℚ), 2, 3, 4] : List ℚ) ≠ [] →
        (rollingMean 3 [(1 : ℚ), 2, 3, 4]).head? = ([(1 : ℚ), 2, 3, 4] : List ℚ).head?) ∧
      (∀ i, i < ([(1 : ℚ), 2, 3, 4] : List ℚ).length →
        (rollingMean 3 [(1 : ℚ), 2, 3, 4])[i]?
            = some (sumList (windowSlice 3 [(1 : ℚ), 2, 3, 4] i) / ((min (i + 1) 3 : Nat) : ℚ)) ∧
        (windowSlice 3 [(1 : ℚ), 2, 3, 4] i).length = min (i + 1) 3) ∧
      (∀ (view : Table) (f1 f2 : Freq), chartOverlay view f1 3 = chartOverlay view f2 3) :=
  c4_rolling_mean 3 (by decide) [(1 : ℚ), 2, 3, 4]

/-- C5: on a non-empty sorted table, the quick-stats block returns the
value of the chronologically last row as last_value, the row count, no
percent change for a single-row table, and 100 × (last − previous) /
previous when a previous row exists with nonzero value. -/
theorem c5_quick_stats (t : Table) (hs : keysSorted t = true) (hne : t ≠ []) :
    ∃ s, quickStats t = .ok s ∧
      s.lastValue = (t.getLast hne).2 ∧
      (∀ r ∈ t, r.1 ≤ (t.getLast hne).1) ∧
      s.rowCount = t.length ∧
      (t.length = 1 → s.percentChange = none) ∧
      (∀ p, t.dropLast.getLast? = some p → p.2 ≠ 0 →
        s.percentChange = some (100 * ((t.getLast hne).2 - p.2) / p.2)) := by
  cases t with
  | nil => exact absurd rfl hne
  | cons r rs =>
    refine ⟨_, rfl, rfl, fun x hx => sorted_le_getLast hs hne x hx, rfl, ?_, ?_⟩
    · intro hlen
      have hrs : rs = [] := by
        cases rs with
        | nil => rfl
        | cons u v => simp at hlen
      subst hrs
      rfl
    · intro p hp hpnz
      show ((lastTwo ((r :: rs).map Prod.snd)).map (fun pl => (pl.2 / pl.1 - 1) * 100)) = _
      rw [lastTwo_eq]
      have hd : ((r :: rs).map Prod.snd).dropLast.getLast? = some p.2 := by
        rw [← List.map_dropLast, List.getLast?_map, hp]
        rfl
      have hl : ((r :: rs).map Prod.snd).getLast? = some ((r :: rs).getLast hne).2 := by
        rw [List.getLast?_map, List.getLast?_eq_getLast _ hne]
        rfl
      rw [hd, hl]
      show some ((((r :: rs).getLast hne).2 / p.2 - 1) * 100) = _
      congr 1
      field_simp
      ring

/-- C5 witness: the theorem applied to the spec's single-row scenario
[(2020-01-01, 5.0)]. -/
theorem c5_quick_stats_witness :
    ∃ s, quickStats [(20200101, (5 : ℚ))] = .ok s ∧
      s.lastValue = (([(20200101, (5 : ℚ))] : Table).getLast (by decide)).2 ∧
      (∀ r ∈ ([(20200101, (5 : ℚ))] : Table),
        r.1 ≤ (([(20200101, (5 : ℚ))] : Table).getLast (by decide)).1) ∧
      s.rowCount = ([(20200101, (5 : ℚ))] : Table).length ∧
      (([(20200101, (5 : ℚ))] : Table).length = 1 → s.percentChange = none) ∧
      (∀ p, ([(20200101, (5 : ℚ))] : Table).dropLast.getLast? = some p → p.2 ≠ 0 →
        s.percentChange
          = some (100 * ((([(20200101, (5 : ℚ))] : Table).getLast (by decide)).2 - p.2) / p.2)) :=
  c5_quick_stats [(20200101, (5 : ℚ))] (by decide) (by decide)

/-- C6: for start ≤ end, the filter keeps exactly the rows whose date
lies in the inclusive range, preserves their order (sublist), and
returns the empty table rather than an error when nothing matches. -/
theorem c6_filter_view (t : Table) (s e : Nat) (_hse : s ≤ e) :
    (∀ r : Nat × ℚ, r ∈ filterView t s e ↔ r ∈ t ∧ (s ≤ r.1 ∧ r.1 ≤ e)) ∧
      List.Sublist (filterView t s e) t ∧
      ((∀ r ∈ t, ¬(s ≤ r.1 ∧ r.1 ≤ e)) → filterView t s e = []) := by
  refine ⟨?_, List.filter_sublist t, ?_⟩
  · intro r
    unfold filterView
    rw [List.mem_filter]
    simp only [Bool.and_eq_true, decide_eq_true_eq]
  · intro h
    unfold filterView
    apply List.filter_eq_nil_iff.2
    intro r hr
    simp only [Bool.and_eq_true, decide_eq_true_eq]
    exact fun hc => h r hr ⟨hc.1, hc.2⟩

/-- C6 witness: the theorem applied to a concrete table and range. -/
theorem c6_filter_view_witness :
    (∀ r : Nat × ℚ, r ∈ filterView [(1, (1 : ℚ)), (5, 2), (9, 3)] 2 9
        ↔ r ∈ ([(1, (1 : ℚ)), (5, 2), (9, 3)] : Table) ∧ (2 ≤ r.1 ∧ r.1 ≤ 9)) ∧
      List.Sublist (filterView [(1, (1 : ℚ)), (5, 2), (9, 3)] 2 9)
        [(1, (1 : ℚ)), (5, 2), (9, 3)] ∧
      ((∀ r ∈ ([(1, (1 : ℚ)), (5, 2), (9, 3)] : Table), ¬(2 ≤ r.1 ∧ r.1 ≤ 9)) →
        filterView [(1, (1 : ℚ)), (5, 2), (9, 3)] 2 9 = []) :=
  c6_filter_view [(1, (1 : ℚ)), (5, 2), (9, 3)] 2 9 (by decide)

/-- C7: the loader takes the header to be the first line whose stripped,
lower-cased text starts with "date,", discards everything before it, so
output is invariant under prepending non-header metadata lines; and when
no such line exists the whole input is parsed as a standard CSV whose
first line is the header (the fallback is not an error path). -/
theorem c7_header_scan :
    (∀ (meta rest : List Line) (h0 : Line), (∀ l ∈ meta, isHeaderLine l = false) →
        isHeaderLine h0 = true → loadLines (meta ++ h0 :: rest) = loadLines (h0 :: rest)) ∧
      (∀ lines : List Line, (∀ l ∈ lines, isHeaderLine l = false) →
        loadLines lines = (readCsv lines).map stripCols) := by
  constructor
  · intro meta rest h0 hm hh
    unfold loadLines
    rw [findIdx?_append_skip meta (h0 :: rest) 0 hm, List.findIdx?_cons, List.findIdx?_cons,
      if_pos hh, if_pos hh]
    show (readCsv ((meta ++ h0 :: rest).drop (0 + meta.length))).map (fun f => dateFix (stripCols f))
        = (readCsv ((h0 :: rest).drop 0)).map (fun f => dateFix (stripCols f))
    rw [Nat.zero_add, List.drop_left, List.drop_zero]
  · intro lines h
    unfold loadLines
    rw [findIdx?_none_of_all_false lines 0 h]

/-- C7 witness: the theorem applied to the spec's metadata scenario and
to a concrete header-free input. -/
theorem c7_header_scan_witness :
    loadLines (["junk line".toList, "more junk".toList]
        ++ "Date,Value".toList :: ["2020-01-01,1.5".toList, "2020-01-02,2.5".toList])
      = loadLines ("Date,Value".toList :: ["2020-01-01,1.5".toList, "2020-01-02,2.5".toList]) ∧
      loadLines ["Time,Value".toList, "2020-01-01,1.5".toList]
        = (readCsv ["Time,Value".toList, "2020-01-01,1.5".toList]).map stripCols :=
  ⟨c7_header_scan.1 ["junk line".toList, "more junk".toList]
      ["2020-01-01,1.5".toList, "2020-01-02,2.5".toList] "Date,Value".toList
      (by decide) (by decide),
    c7_header_scan.2 ["Time,Value".toList, "2020-01-01,1.5".toList] (by decide)⟩

/-- C8: if a column named exactly "Value" exists among the visible
columns it is used unchanged; otherwise the first numeric-typed
non-index column is renamed to "Value"; with no numeric column the load
fails with the no-numeric-value error. -/
theorem c8_value_column (f : Frame) :
    (valueColName ∈ columnsOf f → valueFix f = .ok f) ∧
      (valueColName ∉ columnsOf f → ∀ j, j < f.cols.length → colNumeric f j = true →
        (∀ i < j, colNumeric f i = false) →
        valueFix f = .ok (Frame.mk f.dateName (f.cols.set j valueColName) f.rows f.indexed)) ∧
      (valueColName ∉ columnsOf f → (∀ j < f.cols.length, colNumeric f j = false) →
        valueFix f = .error .noNumericValue) := by
  refine ⟨?_, ?_, ?_⟩
  · intro hmem
    unfold valueFix
    rw [if_pos hmem]
  · intro hnmem j hj hnum hfirst
    unfold valueFix
    rw [if_neg hnmem]
    unfold firstNumericCol
    rw [firstIdxAux_range_some f.cols.length (colNumeric f) j hj hnum hfirst]
  · intro hnmem hall
    unfold valueFix
    rw [if_neg hnmem]
    unfold firstNumericCol
    rw [firstIdxAux_range_none f.cols.length (colNumeric f) hall]

/-- C8 witness: a frame with no "Value" column whose first column does
not parse as numbers and whose second does — the second is renamed. -/
theorem c8_value_column_witness :
    valueFix (Frame.mk "Date".toList ["Open".toList, "Close".toList]
        [(20200101, ["abc".toList, "2.5".toList])] true)
      = .ok (Frame.mk "Date".toList
          ((["Open".toList, "Close".toList] : List Line).set 1 valueColName)
          [(20200101, ["abc".toList, "2.5".toList])] true) :=
  (c8_value_column (Frame.mk "Date".toList ["Open".toList, "Close".toList]
      [(20200101, ["abc".toList, "2.5".toList])] true)).2.1
    (by decide) 1 (by decide) (by decide) (by decide)

/-- C9: exporting the filtered table to CSV text and re-loading it
through the loader pipeline yields the same sequence of (date, value)
pairs, for every sorted table of exactly-representable values and every
date range. -/
theorem c9_export_roundtrip (t : Table) (d0 d1 : Nat) (hs : keysSorted t = true)
    (hv : valsOk t = true) :
    pipelineLoad (exportCsv (filterView t d0 d1)) = .ok (filterView t d0 d1) :=
  pipeline_roundtrip _ (keysSorted_filterView d0 d1 hs) (valsOk_filterView d0 d1 hv)

/-- C9 witness: the theorem applied to a concrete two-row table and
range. -/
theorem c9_export_roundtrip_witness :
    pipelineLoad (exportCsv (filterView [(20200101, (1 : ℚ)), (20200102, 3)] 20200101 20200102))
      = .ok (filterView [(20200101, (1 : ℚ)), (20200102, 3)] 20200101 20200102) :=
  c9_export_roundtrip [(20200101, (1 : ℚ)), (20200102, 3)] 20200101 20200102
    (by decide) (by decide)

/-- C10: with an inverted range (start after end) the filter mask is
empty, so the filter returns the empty table and no error is raised. -/
theorem c10_filter_inverted (t : Table) (s e : Nat) (h : e < s) : filterView t s e = [] := by
  unfold filterView
  apply List.filter_eq_nil_iff.2
  intro r hr
  simp only [Bool.and_eq_true, decide_eq_true_eq]
  exact fun hc => by omega

/-- C10 witness: the theorem applied to a concrete table and inverted
range. -/
theorem c10_filter_inverted_witness :
    filterView [(5, (2 : ℚ))] 9 1 = [] :=
  c10_filter_inverted [(5, (2 : ℚ))] 9 1 (by decide)

end RateExplorer
